import Mathlib

/-!
Verification of the zenodo-client deposition driver against its
natural-language specification.

The Python source (src/zenodo_client/api.py and src/zenodo_client/struct.py)
is embedded shallowly:

* pure string helpers (`_prepare_new_version`, `os.path.basename`,
  `str.split("/")[-1]`) become Lean functions on `String`;
* the HTTP layer is modelled as a deterministic environment
  `Env : List Request → Response`: the response to a request may depend on
  the whole request history so far, which captures server-side state change
  (e.g. the post-upload fetch sees the uploaded files);
* every driver operation returns the value produced (or the raised error,
  via `Except`) together with the trace of requests it issued;
* the pystow configuration store is a function `String → Option String`
  threaded explicitly through `ensure`;
* pydantic model construction becomes an explicit smart constructor
  returning `Except`.
-/

namespace ZenodoClient

/-! ## String helpers -/

/-- Decidable equality for `Except`, used to evaluate driver outcomes on
concrete inputs. -/
instance {ε α : Type} [DecidableEq ε] [DecidableEq α] : DecidableEq (Except ε α) :=
  fun x y =>
    match x, y with
    | .ok a, .ok b =>
      if h : a = b then .isTrue (h ▸ rfl) else .isFalse fun hh => h (Except.ok.inj hh)
    | .error a, .error b =>
      if h : a = b then .isTrue (h ▸ rfl) else .isFalse fun hh => h (Except.error.inj hh)
    | .ok _, .error _ => .isFalse fun h => Except.noConfusion h
    | .error _, .ok _ => .isFalse fun h => Except.noConfusion h

/-- Python `str.startswith`: the candidate is a character-wise prefix. -/
def pyStartsWith (s pre : String) : Bool :=
  pre.toList.isPrefixOf s.toList

/-- Python `str.split` with a one-character separator, on character lists:
splits at every separator occurrence and keeps empty pieces. -/
def splitChar (sep : Char) : List Char → List Char → List (List Char)
  | [], acc => [acc.reverse]
  | c :: rest, acc =>
    if c = sep then acc.reverse :: splitChar sep rest []
    else splitChar sep rest (c :: acc)

/-- Python `s.split("/")`. -/
def pySplitSlash (s : String) : List String :=
  (splitChar '/' s.toList []).map String.mk

/-- Python `os.path.basename` on POSIX paths: the part after the last `/`.
Translated from `_upload_files`, which uploads to `bucket/<basename(path)>`. -/
def basename (p : String) : String :=
  (pySplitSlash p).getLastD ""

/-- Python `url.split("/")[-1]`: the last path segment (`split` always
returns at least one piece, so the `[-1]` index is total).  Translated from
`_update_submitted_deposition_metadata`, which parses the new draft id out of
the `latest_draft` link this way. -/
def lastPathSegment (s : String) : String :=
  (pySplitSlash s).getLastD ""

/-- Translated from `api.py::_prepare_new_version`.  `today` stands for
`datetime.datetime.today().strftime("%Y-%m-%d")`, threaded as a parameter.

Python reads `old_version[-2]` and `old_version[-1]`, i.e. the second-to-last
and last characters; we read them from the reversed character list.
`str.isnumeric` is modelled as `Char.isDigit` (the ASCII digits; the
version labels involved are ASCII).  Python would raise `IndexError` when
`old_version.startswith(new_version)` holds with `len(old_version) < 2`,
which cannot occur when `today` is a ten-character date; theorems that rely
on the index semantics carry `2 ≤ today.length`. -/
def prepareNewVersion (today oldVersion : String) : String :=
  let newVersion := today
  if oldVersion = newVersion then
    newVersion ++ "-1"
  else
    match oldVersion.toList.reverse with
    | last :: penult :: _ =>
      if pyStartsWith oldVersion newVersion && penult == '-' && last.isDigit then
        newVersion ++ "-" ++ toString (1 + (last.toNat - '0'.toNat))
      else newVersion
    | _ => newVersion

/-- The version-generator rule exactly as the specification states it
("if the previous label starts with today's date followed by `-` followed by
a single numeric digit, the next label is today's date with that digit
incremented by one").  This definition follows the spec's words, for
comparison with `prepareNewVersion`, which follows the source. -/
def specNextVersionClaim (today p : String) : String :=
  if p = today then today ++ "-1"
  else
    match p.toList.drop today.length with
    | sep :: d :: _ =>
      if pyStartsWith p today && sep == '-' && d.isDigit then
        today ++ "-" ++ toString ((d.toNat - '0'.toNat) + 1)
      else today
    | _ => today

/-! ## Error taxonomy

The Python code raises `ValueError` (both for the inspected 400 response and
for the missing bucket link), lets `requests.raise_for_status` raise
`requests.HTTPError`, raises `KeyError` on a missing JSON field accessed by
indexing, raises `FileNotFoundError` from the download helper, and pydantic
raises `ValidationError` on model construction. -/

inductive ZErr where
  | valueError (msg : String)
  | httpError (status : Nat) (text : String)
  | keyError (jsonField : String)
  | fileNotFound (msg : String)
  | validationError (msg : String)
  deriving DecidableEq, Repr

/-! ## Metadata model (struct.py) -/

/-- Translated from `struct.py::Creator` (pydantic model). -/
structure Creator where
  name : String
  affiliation : Option String
  orcid : Option String
  gnd : Option String
  deriving DecidableEq, Repr

/-- Pydantic construction of `Creator`.  The `comma_in_name` field validator
runs on the `name` field: it raises unless a comma occurs in the name, and
returns the name unchanged. -/
def mkCreator (name : String) (affiliation orcid gnd : Option String) :
    Except ZErr Creator :=
  if name.toList.contains ',' then
    .ok { name := name, affiliation := affiliation, orcid := orcid, gnd := gnd }
  else
    .error (.validationError "name should be in format Family name, given names")

/-- The `UploadType` literal values from struct.py. -/
def UploadTypeValues : List String :=
  ["publication", "poster", "presentation", "dataset", "image", "video",
   "software", "lesson", "physicalobject", "other"]

/-- The `PublicationType` literal values from struct.py. -/
def PublicationTypeValues : List String :=
  ["annotationcollection", "book", "section", "conferencepaper",
   "datamanagementplan", "article", "patent", "preprint", "deliverable",
   "milestone", "proposal", "report", "softwaredocumentation",
   "taxonomictreatment", "technicalnote", "thesis", "workingpaper", "other"]

/-- The `ImageType` literal values from struct.py. -/
def ImageTypeValues : List String :=
  ["figure", "plot", "drawing", "diagram", "photo", "other"]

/-- The `AccessRight` literal values from struct.py. -/
def AccessRightValues : List String :=
  ["open", "embargoed", "restricted", "closed"]

/-- Translated from `struct.py::Metadata` (pydantic model).  `Community`
values are represented by their `identifier` string. -/
structure Metadata where
  title : String
  upload_type : String
  description : String
  creators : List Creator
  access_right : String
  language : Option String
  version : Option String
  license : Option String
  publication_type : Option String
  image_type : Option String
  communities : List String
  keywords : List String
  notes : Option String
  embargo_date : Option String
  deriving DecidableEq, Repr

/-- Pydantic construction of `Metadata`: each `Literal`-typed field is checked
against its allowed values.  The source also defines a method
`Metadata.__post_init__` containing cross-field checks, but `__post_init__`
is a `dataclasses` hook that pydantic `BaseModel` construction never invokes
(pydantic v2's hook is `model_post_init`), so those checks do not run here;
they are translated separately as `metadataPostInit`. -/
def mkMetadata (title uploadType description : String) (creators : List Creator)
    (accessRight : String) (language version license : Option String)
    (publicationType imageType : Option String)
    (communities keywords : List String) (notes embargoDate : Option String) :
    Except ZErr Metadata :=
  if !(UploadTypeValues.contains uploadType) then
    .error (.validationError "upload_type: not a permitted literal value")
  else if !(AccessRightValues.contains accessRight) then
    .error (.validationError "access_right: not a permitted literal value")
  else if (match publicationType with
           | some p => !(PublicationTypeValues.contains p)
           | none => false) then
    .error (.validationError "publication_type: not a permitted literal value")
  else if (match imageType with
           | some p => !(ImageTypeValues.contains p)
           | none => false) then
    .error (.validationError "image_type: not a permitted literal value")
  else
    .ok { title := title, upload_type := uploadType, description := description,
          creators := creators, access_right := accessRight, language := language,
          version := version, license := license,
          publication_type := publicationType, image_type := imageType,
          communities := communities, keywords := keywords, notes := notes,
          embargo_date := embargoDate }

/-- Translated line by line from `struct.py::Metadata.__post_init__`
(the cross-field validation the class defines; dead code at run time, see
`mkMetadata`). -/
def metadataPostInit (m : Metadata) : Except ZErr Unit := do
  if m.upload_type = "publication" then
    if m.publication_type = none then
      throw (.valueError "missing publication_type")
  if m.publication_type ≠ none ∧ m.upload_type ≠ "publication" then
    throw (.valueError ("Can't use publication_type with upload_type=" ++
      m.upload_type ++ ". Need publication."))
  else if m.upload_type = "image" then
    if m.image_type = none then
      throw (.valueError "missing image_type")
  if m.access_right = "open" ∨ m.access_right = "embargoed" then
    if m.license = none then
      throw (.valueError ("need a license for access_right=" ++ m.access_right))
  if m.access_right = "embargoed" ∧ m.embargo_date = none then
    throw (.valueError "Missing embargo date")
  pure ()

/-- Construction of a `Metadata` value giving only the four required fields;
all other fields take the defaults declared in struct.py
(`access_right="open"`, `language="eng"`,
`version=Field(default_factory=_today_str)`, `license="CC0-1.0"`, empty
`communities` and `keywords`, `None` elsewhere).  `today` stands for
`_today_str()`. -/
def mkMetadataDefaults (title uploadType description : String)
    (creators : List Creator) (today : String) : Except ZErr Metadata :=
  mkMetadata title uploadType description creators "open" (some "eng")
    (some today) (some "CC0-1.0") none none [] [] none none

/-! ## Deposition lifecycle driver (api.py::Zenodo)

Server-side JSON documents are modelled by `Deposition`; fields the driver
indexes unconditionally (`id`, `submitted`, `metadata.version`) are plain,
fields whose absence the code either checks (`links.bucket` in `create`) or
would turn into a `KeyError` (`links.bucket` in `update`,
`links.latest_draft`) are `Option`. -/

/-- The slice of a deposition's `metadata` object the driver reads or writes:
`version` and `publication_date`. -/
structure DMeta where
  version : String
  publication_date : String
  deriving DecidableEq, Repr

/-- The slice of a deposition's `links` object the driver reads. -/
structure DLinks where
  bucket : Option String
  latest_draft : Option String
  deriving DecidableEq, Repr

/-- A deposition representation as returned by the server. -/
structure Deposition where
  id : String
  submitted : Bool
  metadata : DMeta
  links : DLinks
  deriving DecidableEq, Repr

/-- The HTTP requests the driver issues.  The JSON payload of the creation
POST (the serialized metadata) is not inspected by any claim and is omitted
from the request datum. -/
inductive Request where
  | postDep
  | getDep (id : String)
  | postAction (id : String) (action : String)
  | putDep (id : String) (meta : DMeta)
  | putFile (bucket : String) (filename : String)
  deriving DecidableEq, Repr

/-- An HTTP response: status code, raw body text, and parsed JSON body. -/
structure Response where
  status : Nat
  text : String
  json : Deposition
  deriving DecidableEq, Repr

/-- The request history of one driver operation, in issue order. -/
abbrev Trace := List Request

/-- The server environment: the response to the last request of a history.
Making the response depend on the whole history models server state. -/
abbrev Env := List Request → Response

/-- Issue one request: extend the trace and ask the environment. -/
def send (env : Env) (tr : Trace) (r : Request) : Response × Trace :=
  (env (tr ++ [r]), tr ++ [r])

/-- Models `requests.Response.raise_for_status`: raises `HTTPError` for 4xx/5xx
status codes (status codes ≥ 600 do not occur). -/
def raiseForStatus (r : Response) : Except ZErr Unit :=
  if 400 ≤ r.status then .error (.httpError r.status r.text) else .ok ()

/-- Translated from `Zenodo._get_deposition`:
`GET <depositions>/<id>` followed by `raise_for_status`.  (The raw
`requests.get` + `raise_for_status` on the new draft inside
`_update_submitted_deposition_metadata` has the same shape and reuses this.) -/
def getDeposition (env : Env) (tr : Trace) (depositionId : String) :
    Except ZErr Response × Trace :=
  let (res, tr) := send env tr (.getDep depositionId)
  match raiseForStatus res with
  | .error e => (.error e, tr)
  | .ok _ => (.ok res, tr)

/-- Translated from `Zenodo._action`:
`POST <depositions>/<id>/actions/<action>` followed by `raise_for_status`.
The optional `time.sleep(1)` has no observable effect in this model. -/
def depositionAction (env : Env) (tr : Trace) (depositionId action : String) :
    Except ZErr Response × Trace :=
  let (res, tr) := send env tr (.postAction depositionId action)
  match raiseForStatus res with
  | .error e => (.error e, tr)
  | .ok _ => (.ok res, tr)

/-- Translated from `Zenodo.publish`. -/
def publishDeposition (env : Env) (tr : Trace) (depositionId : String) :
    Except ZErr Response × Trace :=
  depositionAction env tr depositionId "publish"

/-- Translated from `Zenodo._upload_files`: for each path in order,
`PUT <bucket>/<basename(path)>` with the file bytes, then
`raise_for_status`; stops at the first failure.  (The Python wrapper that
turns a single path into a one-element list is outside the model: `paths`
is already a list.) -/
def uploadFiles (env : Env) (tr : Trace) (bucket : String) (paths : List String) :
    Except ZErr (List Response) × Trace :=
  match paths with
  | [] => (.ok [], tr)
  | p :: rest =>
    let (res, tr) := send env tr (.putFile bucket (basename p))
    match raiseForStatus res with
    | .error e => (.error e, tr)
    | .ok _ =>
      match uploadFiles env tr bucket rest with
      | (.ok rs, tr) => (.ok (res :: rs), tr)
      | (.error e, tr) => (.error e, tr)

/-- Translated from `Zenodo._update_submitted_deposition_metadata`:
re-fetch the deposition, read its prior `metadata.version`, compute the next
label, invoke the `newversion` action, parse the new draft id as the last
path segment of the response's `links.latest_draft` (indexing: absence is a
`KeyError`), fetch the new draft, overwrite its `metadata.version` and
`metadata.publication_date`, and PUT the metadata back to the new draft. -/
def updateSubmittedDepositionMetadata (env : Env) (today : String) (tr : Trace)
    (depositionId : String) : Except ZErr (String × Deposition) × Trace :=
  match getDeposition env tr depositionId with
  | (.error e, tr) => (.error e, tr)
  | (.ok res, tr) =>
    let oldVersion := res.json.metadata.version
    let newVersionLabel := prepareNewVersion today oldVersion
    match depositionAction env tr depositionId "newversion" with
    | (.error e, tr) => (.error e, tr)
    | (.ok res, tr) =>
      match res.json.links.latest_draft with
      | none => (.error (.keyError "latest_draft"), tr)
      | some latestDraft =>
        let newDepositionId := lastPathSegment latestDraft
        match getDeposition env tr newDepositionId with
        | (.error e, tr) => (.error e, tr)
        | (.ok res, tr) =>
          let newMeta : DMeta :=
            { res.json.metadata with
              version := newVersionLabel, publication_date := today }
          let newDepositionData : Deposition := { res.json with metadata := newMeta }
          let (pres, tr) := send env tr (.putDep newDepositionId newMeta)
          match raiseForStatus pres with
          | .error e => (.error e, tr)
          | .ok _ => (.ok (newDepositionId, newDepositionData), tr)

/-- Translated from `Zenodo.update`: fetch the deposition; if `submitted`,
run the new-version sequence, else reuse the fetched deposition's `id` and
data; read `links.bucket` from the resolved data (indexing: absence is a
`KeyError`); upload the files; re-fetch the original `deposition_id`; if
`publish` is false return that response, else publish the resolved id. -/
def update (env : Env) (today : String) (depositionId : String)
    (paths : List String) (publish : Bool) (tr : Trace) :
    Except ZErr Response × Trace :=
  match getDeposition env tr depositionId with
  | (.error e, tr) => (.error e, tr)
  | (.ok res, tr) =>
    let depositionData := res.json
    let step : Except ZErr (String × Deposition) × Trace :=
      if depositionData.submitted then
        updateSubmittedDepositionMetadata env today tr depositionId
      else
        (.ok (depositionData.id, depositionData), tr)
    match step with
    | (.error e, tr) => (.error e, tr)
    | (.ok (newDepositionId, newDepositionData), tr) =>
      match newDepositionData.links.bucket with
      | none => (.error (.keyError "bucket"), tr)
      | some bucket =>
        match uploadFiles env tr bucket paths with
        | (.error e, tr) => (.error e, tr)
        | (.ok _, tr) =>
          match getDeposition env tr depositionId with
          | (.error e, tr) => (.error e, tr)
          | (.ok res, tr) =>
            if !publish then (.ok res, tr)
            else publishDeposition env tr newDepositionId

/-- The message of the `ValueError` raised by `create` when the creation
response has no `links.bucket` (`f"No bucket in response. Got: {res_json}"`). -/
def noBucketMsg (d : Deposition) : String :=
  "No bucket in response. Got: " ++ toString (repr d)

/-- Translated from `Zenodo.create`: POST the new deposition; a 400 status
is reported as `ValueError(res.text)`; any other non-success status
propagates through `raise_for_status`; a missing `links.bucket` is a
`ValueError` raised before any upload; then upload the files to the bucket
and either fetch the unpublished deposition (`publish=False`) or publish it. -/
def create (env : Env) (tr : Trace) (paths : List String) (publish : Bool) :
    Except ZErr Response × Trace :=
  let (res, tr) := send env tr .postDep
  if res.status = 400 then (.error (.valueError res.text), tr)
  else
    match raiseForStatus res with
    | .error e => (.error e, tr)
    | .ok _ =>
      let resJson := res.json
      match resJson.links.bucket with
      | none => (.error (.valueError (noBucketMsg resJson)), tr)
      | some bucket =>
        match uploadFiles env tr bucket paths with
        | (.error e, tr) => (.error e, tr)
        | (.ok _, tr) =>
          let depositionId := resJson.id
          if !publish then getDeposition env tr depositionId
          else publishDeposition env tr depositionId

/-- The pystow configuration store restricted to the driver's module:
key → remembered deposition id. -/
abbrev Store := String → Option String

/-- Translated from `Zenodo.ensure`: look the key up in the store; if an id
is remembered, delegate to `update` (with the default `publish=True`);
otherwise delegate to `create` (default `publish=True`) and, on success,
write the returned deposition's id under the key.  Returns the operation's
outcome together with the store after the call. -/
def ensure (env : Env) (today : String) (store : Store) (key : String)
    (paths : List String) : (Except ZErr Response × Trace) × Store :=
  match store key with
  | some depositionId => (update env today depositionId paths true [], store)
  | none =>
    match create env [] paths true with
    | (.error e, tr) => ((.error e, tr), store)
    | (.ok res, tr) =>
      ((.ok res, tr), fun k => if k = key then some res.json.id else store k)

/-! ## Record resolver / downloader (api.py::Zenodo._download_helper) -/

/-- One entry of a record's `files` array: its `key` (file name) and its
`links.self` download URL. -/
structure RecFile where
  key : String
  link : String
  deriving DecidableEq, Repr

/-- The slice of a record representation `_download_helper` reads. -/
structure RecordJson where
  conceptrecid : String
  metadata_version : Option String
  files : List RecFile
  deriving DecidableEq, Repr

/-- The `parts` argument of the download operations: absent, a literal
sequence, or a function of (concept record id, record id, version). -/
inductive PartsHint where
  | auto
  | given (parts : List String)
  | byFun (f : String → String → String → List String)

/-- Python `module.replace(":", "-")`: with a one-character pattern this is a
character-wise map. -/
def replaceColonDash (module : String) : String :=
  String.mk (module.toList.map fun c => if c = ':' then '-' else c)

/-- Resolution of `parts` in `_download_helper`. -/
def resolveParts (module : String) (hint : PartsHint)
    (conceptRecordId recordId version : String) : List String :=
  match hint with
  | .auto => [replaceColonDash module, conceptRecordId, version]
  | .given ps => ps
  | .byFun f => f conceptRecordId recordId version

/-- One invocation of the `pystow.ensure` collaborator ("download into the
local cache tree unless already present and not forced"). -/
structure EnsureCall where
  parts : List String
  name : String
  url : String
  force : Bool
  deriving DecidableEq, Repr

/-- The local-storage collaborator: parts, file name, url, force → local
path. -/
abbrev PystowEnsure := List String → String → String → Bool → String

/-- Result of `_download_helper`: a single path (`name` given) or one path
per file (`name=None`). -/
inductive DownloadResult where
  | single (path : String)
  | all (paths : List String)
  deriving DecidableEq, Repr

/-- Translated from `Zenodo._download_helper`.  The record fetch
(`get_record(record_id).json()`) is represented by the `rec` argument;
`pystow.ensure` by the `pystow` function.  Returns the outcome together
with the list of `pystow.ensure` invocations made (`thread_map` fetches
concurrently in the `name=None` branch; the resulting list order is the
`files` order either way). -/
def downloadHelper (pystow : PystowEnsure) (module : String) (rec : RecordJson)
    (recordId : String) (name : Option String) (force : Bool) (hint : PartsHint) :
    Except ZErr DownloadResult × List EnsureCall :=
  let version := rec.metadata_version.getD "v1"
  let parts := resolveParts module hint rec.conceptrecid recordId version
  let nameUrlPairs := rec.files.map fun f => (f.key, f.link)
  match name with
  | none =>
    let calls := nameUrlPairs.map fun nu => EnsureCall.mk parts nu.1 nu.2 force
    (.ok (.all (calls.map fun c => pystow c.parts c.name c.url c.force)), calls)
  | some n =>
    match nameUrlPairs.filter (fun nu => nu.1 == n) with
    | [] =>
      (.error (.fileNotFound ("zenodo.record:" ++ recordId ++
        " does not have a file with key " ++ n)), [])
    | m :: ms =>
      let calls := (m :: ms).map fun nu => EnsureCall.mk parts nu.1 nu.2 force
      (.ok (.single (pystow parts m.1 m.2 force)), calls)

/-! ## Derived notions used by the theorems -/

/-- The requests `_upload_files` issues for a batch of paths, in order. -/
def uploadTrace (bucket : String) (paths : List String) : Trace :=
  paths.map fun p => Request.putFile bucket (basename p)

/-- The metadata document `update` PUTs to the new draft when the fetched
deposition was already submitted: the version label computed by the version
generator from the prior label (read from the re-fetch of the original
deposition, the second `getDep` of the trace) and today's date as the
publication date. -/
def newVersionMeta (env : Env) (today i : String) : DMeta :=
  { version := prepareNewVersion today
      ((env [Request.getDep i, Request.getDep i]).json.metadata.version),
    publication_date := today }

/-! ## Concrete fixtures for witnesses -/

/-- A creator value as pydantic validation accepts it. -/
def hoyt : Creator :=
  { name := "Hoyt, Charles Tapley", affiliation := none, orcid := none, gnd := none }

/-- A published (submitted) deposition representation. -/
def depSub : Deposition :=
  { id := "7", submitted := true,
    metadata := { version := "2024-01-01", publication_date := "2024-01-01" },
    links := { bucket := some "B",
               latest_draft := some "https://sandbox.zenodo.org/api/deposit/depositions/42" } }

/-- An environment whose server always answers 200 with `depSub`. -/
def envSub : Env := fun _ => { status := 200, text := "", json := depSub }

/-- An unsubmitted (draft) deposition representation. -/
def depUnsub : Deposition :=
  { id := "9", submitted := false,
    metadata := { version := "v1", publication_date := "2024-01-01" },
    links := { bucket := some "B2", latest_draft := none } }

/-- An environment whose server always answers 200 with `depUnsub`. -/
def envUnsub : Env := fun _ => { status := 200, text := "", json := depUnsub }

/-- A deposition representation whose `links` carry no bucket. -/
def depNoBucket : Deposition :=
  { id := "3", submitted := false,
    metadata := { version := "v1", publication_date := "2024-01-01" },
    links := { bucket := none, latest_draft := none } }

/-- An environment that answers 200 but allocates no bucket. -/
def envNoBucket : Env := fun _ => { status := 200, text := "", json := depNoBucket }

/-- An environment that answers every request with HTTP 400. -/
def envBad400 : Env :=
  fun _ => { status := 400, text := "metadata validation failed", json := depUnsub }

/-- An environment that answers every request with HTTP 500. -/
def envBad500 : Env :=
  fun _ => { status := 500, text := "internal server error", json := depUnsub }

/-- An empty configuration store. -/
def storeEmpty : Store := fun _ => none

/-- A record representation with two files. -/
def recEx : RecordJson :=
  { conceptrecid := "100", metadata_version := some "2024-01-01",
    files := [{ key := "f.txt", link := "https://z/api/files/aa/f.txt" },
              { key := "g.txt", link := "https://z/api/files/aa/g.txt" }] }

/-- A local-storage collaborator that caches under `local/<name>`. -/
def pystowEx : PystowEnsure := fun _ n _ _ => "local/" ++ n

/-! ## General lemmas about the embedded driver -/

theorem raiseForStatus_ok (r : Response) (h : r.status < 400) :
    raiseForStatus r = .ok () := by
  unfold raiseForStatus
  rw [if_neg (by omega)]

theorem getDeposition_run (env : Env) (tr : Trace) (i : String)
    (h : (env (tr ++ [Request.getDep i])).status < 400) :
    getDeposition env tr i =
      (.ok (env (tr ++ [Request.getDep i])), tr ++ [Request.getDep i]) := by
  simp [getDeposition, send, raiseForStatus_ok _ h]

theorem depositionAction_run (env : Env) (tr : Trace) (i a : String)
    (h : (env (tr ++ [Request.postAction i a])).status < 400) :
    depositionAction env tr i a =
      (.ok (env (tr ++ [Request.postAction i a])), tr ++ [Request.postAction i a]) := by
  simp [depositionAction, send, raiseForStatus_ok _ h]

theorem uploadFiles_run (env : Env) (bucket : String)
    (hok : ∀ l, (env l).status < 400) :
    ∀ (paths : List String) (tr : Trace), ∃ rs,
      uploadFiles env tr bucket paths = (.ok rs, tr ++ uploadTrace bucket paths) := by
  intro paths
  induction paths with
  | nil => intro tr; exact ⟨[], by simp [uploadFiles, uploadTrace]⟩
  | cons p rest ih =>
    intro tr
    obtain ⟨rs, hrs⟩ := ih (tr ++ [Request.putFile bucket (basename p)])
    refine ⟨env (tr ++ [Request.putFile bucket (basename p)]) :: rs, ?_⟩
    simp [uploadFiles, send, raiseForStatus_ok _ (hok _), hrs, uploadTrace]

/-! ## C2: the version generator -/

/-- C2 counterexample.  The claim describes the increment branch as
"p starts with today followed by `-` followed by a single numeric digit"
(`specNextVersionClaim`); the code instead tests `old_version[-2] == "-"`
and `old_version[-1].isnumeric()`, i.e. the last two characters of the whole
label.  On `p = "2024-01-01x-5"` with today `2024-01-01` the claim's clause
(3) applies (result `"2024-01-01"`), but the code increments the trailing
digit and returns `"2024-01-01-6"`. -/
theorem prepareNewVersion_counterexample :
    prepareNewVersion "2024-01-01" "2024-01-01x-5" = "2024-01-01-6" ∧
    specNextVersionClaim "2024-01-01" "2024-01-01x-5" = "2024-01-01" ∧
    prepareNewVersion "2024-01-01" "2024-01-01x-5" ≠
      specNextVersionClaim "2024-01-01" "2024-01-01x-5" := by
  refine ⟨by decide, by decide, by decide⟩

/-- C2 amended.  The version generator is a pure function of the
previous label `p` and today's date `t`: (1) if `p = t` the result is
`t ++ "-1"`; (2) else if `p` starts with `t` *and `p`'s second-to-last
character is `-` and its last character is a numeric digit*, the result is
`t ++ "-"` followed by that last digit incremented by one; (3) otherwise the
result is exactly `t`.  (`2 ≤ t.length` marks the regime in which the
Python index accesses are defined; a real `YYYY-MM-DD` date has length 10.) -/
theorem prepareNewVersion_amended (t p : String) (_ht : 2 ≤ t.length) :
    (p = t → prepareNewVersion t p = t ++ "-1") ∧
    (∀ s d, p ≠ t → p = s ++ "-" ++ String.singleton d → d.isDigit →
      pyStartsWith p t = true →
      prepareNewVersion t p = t ++ "-" ++ toString (1 + (d.toNat - '0'.toNat))) ∧
    (p ≠ t →
      (pyStartsWith p t = false ∨ ∀ s d, d.isDigit → p ≠ s ++ "-" ++ String.singleton d) →
      prepareNewVersion t p = t) := by
  refine ⟨?_, ?_, ?_⟩
  · intro h; simp [prepareNewVersion, h]
  · intro s d hne hp hd hsw
    subst hp
    have hrev : (s ++ "-" ++ String.singleton d).toList.reverse =
        d :: '-' :: s.toList.reverse := by
      show ((s.data ++ ['-']) ++ [d]).reverse = d :: '-' :: s.data.reverse
      simp
    simp only [prepareNewVersion, if_neg hne, hrev]
    simp [hsw, hd]
  · intro hne hcond
    simp only [prepareNewVersion, if_neg hne]
    rcases hrev : p.toList.reverse with _ | ⟨last, _ | ⟨penult, rest⟩⟩
    · rfl
    · rfl
    · rcases hcond with hsw | hno
      · simp [hsw]
      · have hcondFalse : ¬(penult = '-' ∧ last.isDigit = true) := by
          rintro ⟨hpen, hdig⟩
          have hdata : p.toList = rest.reverse ++ ['-', last] := by
            have := congrArg List.reverse hrev
            simpa [hpen] using this
          have hpeq : p = String.mk rest.reverse ++ "-" ++ String.singleton last := by
            apply congrArg String.mk (by simpa using hdata)
          exact hno (String.mk rest.reverse) last hdig hpeq
        by_cases hpen : penult = '-'
        · have hdig : last.isDigit = false := by
            rcases h : last.isDigit with _ | _
            · rfl
            · exact absurd ⟨hpen, h⟩ hcondFalse
          simp [hdig]
        · simp [hpen]

/-- Witness for `prepareNewVersion_amended`: same-day label `2024-01-01-1`
increments to `2024-01-01-2`. -/
theorem prepareNewVersion_amended_witness :
    prepareNewVersion "2024-01-01" "2024-01-01-1" =
      "2024-01-01" ++ "-" ++ toString (1 + ('1'.toNat - '0'.toNat)) :=
  (prepareNewVersion_amended "2024-01-01" "2024-01-01-1" (by decide)).2.1
    "2024-01-01" '1' (by decide) (by decide) (by decide) (by decide)

/-! ## C8: creator name validation -/

/-- C8.  Constructing a `Creator` whose name contains no comma fails with
a validation error, for every such name; a name containing a comma succeeds
and is left unchanged. -/
theorem mkCreator_comma (name : String) (affiliation orcid gnd : Option String) :
    (name.toList.contains ',' = false →
      mkCreator name affiliation orcid gnd =
        .error (.validationError "name should be in format Family name, given names")) ∧
    (name.toList.contains ',' = true →
      mkCreator name affiliation orcid gnd =
        .ok { name := name, affiliation := affiliation, orcid := orcid, gnd := gnd }) := by
  constructor <;> intro h <;> simp [mkCreator, h] <;> simpa using h

/-- Witness for `mkCreator_comma`: `"CharlesHoyt"` is rejected,
`"Hoyt, Charles Tapley"` is accepted unchanged. -/
theorem mkCreator_comma_witness :
    mkCreator "CharlesHoyt" none none none =
      .error (.validationError "name should be in format Family name, given names") ∧
    mkCreator "Hoyt, Charles Tapley" none none none =
      .ok { name := "Hoyt, Charles Tapley", affiliation := none, orcid := none, gnd := none } :=
  ⟨(mkCreator_comma "CharlesHoyt" none none none).1 (by decide),
   (mkCreator_comma "Hoyt, Charles Tapley" none none none).2 (by decide)⟩

/-! ## C3: Metadata cross-field validation is dead code -/

/-- C3.  The claim says the four cross-field constructions fail at
construction time.  In the code, those checks live in
`Metadata.__post_init__`, a hook pydantic `BaseModel` never invokes, so each
of the four constructions *succeeds* (`mkMetadata … = .ok _` below) even
though the check the class defines (`metadataPostInit`, dead code) would
reject it; with the companion fields present both construction and the dead
check pass.  Each conjunct maps the dead check over the construction result:
`.ok (.error _)` = "construction succeeded although the declared invariant
is violated". -/
theorem metadataPostInit_dead :
    ((mkMetadata "T" "publication" "D" [hoyt] "open" (some "eng") (some "2024-01-01")
        (some "CC0-1.0") none none [] [] none none).map metadataPostInit =
      .ok (.error (.valueError "missing publication_type"))) ∧
    ((mkMetadata "T" "image" "D" [hoyt] "open" (some "eng") (some "2024-01-01")
        (some "CC0-1.0") none none [] [] none none).map metadataPostInit =
      .ok (.error (.valueError "missing image_type"))) ∧
    ((mkMetadata "T" "dataset" "D" [hoyt] "embargoed" (some "eng") (some "2024-01-01")
        (some "CC0-1.0") none none [] [] none none).map metadataPostInit =
      .ok (.error (.valueError "Missing embargo date"))) ∧
    ((mkMetadata "T" "dataset" "D" [hoyt] "open" (some "eng") (some "2024-01-01")
        none none none [] [] none none).map metadataPostInit =
      .ok (.error (.valueError "need a license for access_right=open"))) ∧
    ((mkMetadata "T" "publication" "D" [hoyt] "open" (some "eng") (some "2024-01-01")
        (some "CC0-1.0") (some "article") none [] [] none none).map metadataPostInit =
      .ok (.ok ())) ∧
    ((mkMetadata "T" "image" "D" [hoyt] "open" (some "eng") (some "2024-01-01")
        (some "CC0-1.0") none (some "figure") [] [] none none).map metadataPostInit =
      .ok (.ok ())) ∧
    ((mkMetadata "T" "dataset" "D" [hoyt] "embargoed" (some "eng") (some "2024-01-01")
        (some "CC0-1.0") none none [] [] none (some "2024-06-01")).map metadataPostInit =
      .ok (.ok ())) ∧
    ((mkMetadata "T" "dataset" "D" [hoyt] "open" (some "eng") (some "2024-01-01")
        (some "CC0-1.0") none none [] [] none none).map metadataPostInit =
      .ok (.ok ())) := by
  decide

/-! ## C10: Metadata defaults -/

/-- C10.  A `Metadata` constructed with only the required fields receives
`access_right = "open"`, `language = "eng"`, `license = "CC0-1.0"`,
`version = today` (the `_today_str()` default factory) and empty
`communities`/`keywords`; and the version generator's same-day rule applies
to the defaulted label: `next(today) = today ++ "-1"`. -/
theorem mkMetadataDefaults_run (title uploadType description : String)
    (creators : List Creator) (today : String)
    (h : UploadTypeValues.contains uploadType = true) :
    mkMetadataDefaults title uploadType description creators today =
      .ok { title := title, upload_type := uploadType, description := description,
            creators := creators, access_right := "open", language := some "eng",
            version := some today, license := some "CC0-1.0",
            publication_type := none, image_type := none, communities := [],
            keywords := [], notes := none, embargo_date := none } ∧
    prepareNewVersion today today = today ++ "-1" := by
  constructor
  · have h' : uploadType ∈ UploadTypeValues := by simpa using h
    simp [mkMetadataDefaults, mkMetadata, h', AccessRightValues]
  · simp [prepareNewVersion]

/-- Witness for `mkMetadataDefaults_run` at a concrete dataset record. -/
theorem mkMetadataDefaults_run_witness :
    mkMetadataDefaults "Test Upload" "dataset" "test description" [hoyt] "2024-01-01" =
      .ok { title := "Test Upload", upload_type := "dataset",
            description := "test description", creators := [hoyt],
            access_right := "open", language := some "eng",
            version := some "2024-01-01", license := some "CC0-1.0",
            publication_type := none, image_type := none, communities := [],
            keywords := [], notes := none, embargo_date := none } ∧
    prepareNewVersion "2024-01-01" "2024-01-01" = "2024-01-01" ++ "-1" :=
  mkMetadataDefaults_run "Test Upload" "dataset" "test description" [hoyt]
    "2024-01-01" (by decide)

/-! ## C7: download by file name -/

theorem filter_pairs_of_find? {files : List RecFile} {n : String} {f : RecFile}
    (hf : files.find? (fun g => g.key == n) = some f) :
    ∃ ms, (files.map fun g => (g.key, g.link)).filter (fun nu => nu.1 == n) =
      (f.key, f.link) :: ms := by
  induction files with
  | nil => simp at hf
  | cons a t ih =>
    cases hb : (a.key == n)
    · simp only [List.find?, hb] at hf
      obtain ⟨ms, hms⟩ := ih hf
      exact ⟨ms, by simp [hb, hms]⟩
    · simp only [List.find?, hb] at hf
      obtain rfl : a = f := by injection hf
      exact ⟨(t.map fun g => (g.key, g.link)).filter (fun nu => nu.1 == n),
        by simp [hb]⟩

/-- C7.  When no file of the record has `key = n`, the download helper
raises `FileNotFoundError` and performs no `pystow.ensure` call (downloads
nothing); when some file matches, it returns the local path `pystow.ensure`
yields for that (first matching) file, no such error is raised, and at least
one `pystow.ensure` call is made. -/
theorem downloadHelper_named (pystow : PystowEnsure) (module recordId : String)
    (rec : RecordJson) (n : String) (force : Bool) (hint : PartsHint) :
    ((∀ f ∈ rec.files, f.key ≠ n) →
      downloadHelper pystow module rec recordId (some n) force hint =
        (.error (.fileNotFound ("zenodo.record:" ++ recordId ++
          " does not have a file with key " ++ n)), [])) ∧
    (∀ f, rec.files.find? (fun g => g.key == n) = some f →
      ∃ calls, downloadHelper pystow module rec recordId (some n) force hint =
        (.ok (.single (pystow
          (resolveParts module hint rec.conceptrecid recordId
            (rec.metadata_version.getD "v1"))
          f.key f.link force)), calls) ∧ calls ≠ []) := by
  constructor
  · intro h
    have hnil : (rec.files.map fun g => (g.key, g.link)).filter
        (fun nu => nu.1 == n) = [] := by
      rw [List.filter_eq_nil_iff]
      rintro ⟨k, u⟩ hmem
      rw [List.mem_map] at hmem
      obtain ⟨f, hfmem, hfe⟩ := hmem
      have hk : k = f.key := by
        have := congrArg Prod.fst hfe
        simpa using this.symm
      subst hk
      simpa using h f hfmem
    simp [downloadHelper, hnil]
  · intro f hf
    obtain ⟨ms, hms⟩ := filter_pairs_of_find? hf
    exact ⟨((f.key, f.link) :: ms).map fun nu =>
        EnsureCall.mk (resolveParts module hint rec.conceptrecid recordId
          (rec.metadata_version.getD "v1")) nu.1 nu.2 force,
      by simp [downloadHelper, hms], by simp⟩

/-- Witness for `downloadHelper_named`: `recEx` has no `nonexistent.txt`
(error, no calls) and does have `f.txt` (success). -/
theorem downloadHelper_named_witness :
    downloadHelper pystowEx "zenodo" recEx "4574555" (some "nonexistent.txt") false .auto =
      (.error (.fileNotFound ("zenodo.record:" ++ "4574555" ++
        " does not have a file with key " ++ "nonexistent.txt")), []) ∧
    ∃ calls, downloadHelper pystowEx "zenodo" recEx "4574555" (some "f.txt") false .auto =
      (.ok (.single (pystowEx
        (resolveParts "zenodo" .auto recEx.conceptrecid "4574555"
          (recEx.metadata_version.getD "v1"))
        "f.txt" "https://z/api/files/aa/f.txt" false)), calls) ∧ calls ≠ [] := by
  constructor
  · exact (downloadHelper_named pystowEx "zenodo" "4574555" recEx
      "nonexistent.txt" false .auto).1 (by decide)
  · exact (downloadHelper_named pystowEx "zenodo" "4574555" recEx
      "f.txt" false .auto).2
      { key := "f.txt", link := "https://z/api/files/aa/f.txt" } (by decide)

/-! ## Evaluation lemmas for `update` -/

theorem updateSubmitted_run (env : Env) (today i ld : String)
    (hok : ∀ l, (env l).status < 400)
    (hld : (env [Request.getDep i, Request.getDep i,
        Request.postAction i "newversion"]).json.links.latest_draft = some ld) :
    updateSubmittedDepositionMetadata env today [Request.getDep i] i =
      (.ok (lastPathSegment ld,
        { (env [Request.getDep i, Request.getDep i,
            Request.postAction i "newversion",
            Request.getDep (lastPathSegment ld)]).json with
          metadata := newVersionMeta env today i }),
       [Request.getDep i, Request.getDep i, Request.postAction i "newversion",
        Request.getDep (lastPathSegment ld),
        Request.putDep (lastPathSegment ld) (newVersionMeta env today i)]) := by
  simp [updateSubmittedDepositionMetadata, getDeposition_run, depositionAction_run,
    send, raiseForStatus_ok, hok, hld, newVersionMeta]

theorem update_run_submitted (env : Env) (today i : String) (paths : List String)
    (publish : Bool) (ld b : String)
    (hok : ∀ l, (env l).status < 400)
    (hsub : (env [Request.getDep i]).json.submitted = true)
    (hld : (env [Request.getDep i, Request.getDep i,
        Request.postAction i "newversion"]).json.links.latest_draft = some ld)
    (hb : (env [Request.getDep i, Request.getDep i,
        Request.postAction i "newversion",
        Request.getDep (lastPathSegment ld)]).json.links.bucket = some b) :
    update env today i paths publish [] =
      (let nid := lastPathSegment ld
       let T := Request.getDep i :: Request.getDep i ::
         Request.postAction i "newversion" :: Request.getDep nid ::
         Request.putDep nid (newVersionMeta env today i) ::
         (uploadTrace b paths ++ [Request.getDep i])
       if publish then
         (.ok (env (T ++ [Request.postAction nid "publish"])),
          T ++ [Request.postAction nid "publish"])
       else (.ok (env T), T)) := by
  have hus := updateSubmitted_run env today i ld hok hld
  obtain ⟨rs, hrs⟩ := uploadFiles_run env b hok paths
    [Request.getDep i, Request.getDep i, Request.postAction i "newversion",
     Request.getDep (lastPathSegment ld),
     Request.putDep (lastPathSegment ld) (newVersionMeta env today i)]
  cases publish <;>
    simp [update, getDeposition_run, hok, hsub, hus, hb, hrs,
      publishDeposition, depositionAction_run]

theorem update_run_unsubmitted (env : Env) (today i : String) (paths : List String)
    (publish : Bool) (b : String)
    (hok : ∀ l, (env l).status < 400)
    (hsub : (env [Request.getDep i]).json.submitted = false)
    (hb : (env [Request.getDep i]).json.links.bucket = some b) :
    update env today i paths publish [] =
      (let did := (env [Request.getDep i]).json.id
       let T := Request.getDep i :: (uploadTrace b paths ++ [Request.getDep i])
       if publish then
         (.ok (env (T ++ [Request.postAction did "publish"])),
          T ++ [Request.postAction did "publish"])
       else (.ok (env T), T)) := by
  obtain ⟨rs, hrs⟩ := uploadFiles_run env b hok paths [Request.getDep i]
  cases publish <;>
    simp [update, getDeposition_run, hok, hsub, hb, hrs,
      publishDeposition, depositionAction_run]

theorem getLast?_append_concat {α : Type} (P A : List α) (a : α) :
    (P ++ (A ++ [a])).getLast? = some a := by
  rw [← List.append_assoc]
  exact List.getLast?_concat _

theorem envSub_ok (l : List Request) : (envSub l).status < 400 := by
  show (200 : Nat) < 400
  decide

theorem envUnsub_ok (l : List Request) : (envUnsub l).status < 400 := by
  show (200 : Nat) < 400
  decide

theorem envNoBucket_ok (l : List Request) : (envNoBucket l).status < 400 := by
  show (200 : Nat) < 400
  decide

/-! ## C1: the update flow -/

/-- C1.  `update` first fetches the deposition.  If `submitted = true` it
performs the new-version sequence — re-fetch (reading the prior version
label), `newversion` action, new draft id parsed as the last path segment of
the response's `latest_draft` link, fetch of that draft, PUT of the metadata
`newVersionMeta` (generator label + today's publication date) to the new
draft — then uploads to the new draft's bucket and, when `publish`, posts
the publish action on the new draft id.  If `submitted = false` it reuses
the fetched deposition's `id` and bucket, never invokes the `newversion`
action, uploads, and publishes the fetched id when `publish`. -/
theorem update_flow (env : Env) (today i : String) (paths : List String)
    (publish : Bool) (hok : ∀ l, (env l).status < 400) :
    ((env [Request.getDep i]).json.submitted = true →
      ∀ ld b,
        (env [Request.getDep i, Request.getDep i,
          Request.postAction i "newversion"]).json.links.latest_draft = some ld →
        (env [Request.getDep i, Request.getDep i,
          Request.postAction i "newversion",
          Request.getDep (lastPathSegment ld)]).json.links.bucket = some b →
        update env today i paths publish [] =
          (let nid := lastPathSegment ld
           let T := Request.getDep i :: Request.getDep i ::
             Request.postAction i "newversion" :: Request.getDep nid ::
             Request.putDep nid (newVersionMeta env today i) ::
             (uploadTrace b paths ++ [Request.getDep i])
           if publish then
             (.ok (env (T ++ [Request.postAction nid "publish"])),
              T ++ [Request.postAction nid "publish"])
           else (.ok (env T), T))) ∧
    ((env [Request.getDep i]).json.submitted = false →
      ∀ b, (env [Request.getDep i]).json.links.bucket = some b →
        (update env today i paths publish [] =
          (let did := (env [Request.getDep i]).json.id
           let T := Request.getDep i :: (uploadTrace b paths ++ [Request.getDep i])
           if publish then
             (.ok (env (T ++ [Request.postAction did "publish"])),
              T ++ [Request.postAction did "publish"])
           else (.ok (env T), T)) ∧
         ∀ j, Request.postAction j "newversion" ∉
           (update env today i paths publish []).2)) := by
  refine ⟨fun hsub ld b hld hb =>
      update_run_submitted env today i paths publish ld b hok hsub hld hb,
    fun hsub b hb =>
      ⟨update_run_unsubmitted env today i paths publish b hok hsub hb, ?_⟩⟩
  intro j
  rw [update_run_unsubmitted env today i paths publish b hok hsub hb]
  cases publish <;> simp [uploadTrace]

/-- Witness for `update_flow`: both branches evaluated against constant
environments. -/
theorem update_flow_witness :
    update envSub "2024-01-01" "7" ["a/f.txt"] true [] =
      (.ok (envSub [Request.getDep "7", Request.getDep "7",
        Request.postAction "7" "newversion", Request.getDep "42",
        Request.putDep "42" (newVersionMeta envSub "2024-01-01" "7"),
        Request.putFile "B" "f.txt", Request.getDep "7",
        Request.postAction "42" "publish"]),
       [Request.getDep "7", Request.getDep "7",
        Request.postAction "7" "newversion", Request.getDep "42",
        Request.putDep "42" (newVersionMeta envSub "2024-01-01" "7"),
        Request.putFile "B" "f.txt", Request.getDep "7",
        Request.postAction "42" "publish"]) ∧
    update envUnsub "2024-01-01" "9" ["g.txt"] false [] =
      (.ok (envUnsub [Request.getDep "9", Request.putFile "B2" "g.txt",
        Request.getDep "9"]),
       [Request.getDep "9", Request.putFile "B2" "g.txt", Request.getDep "9"]) := by
  constructor
  · have h := (update_flow envSub "2024-01-01" "7" ["a/f.txt"] true
        envSub_ok).1 (by decide)
        "https://sandbox.zenodo.org/api/deposit/depositions/42" "B"
        (by decide) (by decide)
    rw [h]; decide
  · have h := ((update_flow envUnsub "2024-01-01" "9" ["g.txt"] false
        envUnsub_ok).2 (by decide) "B2" (by decide)).1
    rw [h]; decide

/-! ## C9: the returned representation targets the original id -/

/-- C9.  For `update` on an already-submitted deposition with
`publish = false`, the returned representation is the post-upload fetch of
the original `deposition_id` argument — the trace ends with
`getDep i`, not with a fetch of the new draft id — while with
`publish = true` the final request (the publish action) targets the new
draft's id. -/
theorem update_returns_original_fetch (env : Env) (today i : String)
    (paths : List String) (ld b : String)
    (hok : ∀ l, (env l).status < 400)
    (hsub : (env [Request.getDep i]).json.submitted = true)
    (hld : (env [Request.getDep i, Request.getDep i,
        Request.postAction i "newversion"]).json.links.latest_draft = some ld)
    (hb : (env [Request.getDep i, Request.getDep i,
        Request.postAction i "newversion",
        Request.getDep (lastPathSegment ld)]).json.links.bucket = some b)
    (hne : lastPathSegment ld ≠ i) :
    (∃ T, update env today i paths false [] = (.ok (env T), T) ∧
       T.getLast? = some (Request.getDep i) ∧
       T.getLast? ≠ some (Request.getDep (lastPathSegment ld))) ∧
    (update env today i paths true []).2.getLast? =
      some (Request.postAction (lastPathSegment ld) "publish") := by
  have hT : (Request.getDep i :: Request.getDep i ::
      Request.postAction i "newversion" :: Request.getDep (lastPathSegment ld) ::
      Request.putDep (lastPathSegment ld) (newVersionMeta env today i) ::
      (uploadTrace b paths ++ [Request.getDep i])).getLast? =
        some (Request.getDep i) :=
    getLast?_append_concat
      [Request.getDep i, Request.getDep i, Request.postAction i "newversion",
       Request.getDep (lastPathSegment ld),
       Request.putDep (lastPathSegment ld) (newVersionMeta env today i)]
      (uploadTrace b paths) (Request.getDep i)
  constructor
  · refine ⟨Request.getDep i :: Request.getDep i ::
      Request.postAction i "newversion" :: Request.getDep (lastPathSegment ld) ::
      Request.putDep (lastPathSegment ld) (newVersionMeta env today i) ::
      (uploadTrace b paths ++ [Request.getDep i]), ?_, hT, ?_⟩
    · simpa using update_run_submitted env today i paths false ld b hok hsub hld hb
    · rw [hT]
      intro hx
      have hx2 : Request.getDep i = Request.getDep (lastPathSegment ld) :=
        Option.some.inj hx
      exact hne (Request.getDep.inj hx2).symm
  · rw [update_run_submitted env today i paths true ld b hok hsub hld hb]
    show ((Request.getDep i :: Request.getDep i ::
      Request.postAction i "newversion" :: Request.getDep (lastPathSegment ld) ::
      Request.putDep (lastPathSegment ld) (newVersionMeta env today i) ::
      (uploadTrace b paths ++ [Request.getDep i])) ++
        [Request.postAction (lastPathSegment ld) "publish"]).getLast? =
      some (Request.postAction (lastPathSegment ld) "publish")
    exact List.getLast?_concat _

/-- Witness for `update_returns_original_fetch` against `envSub`. -/
theorem update_returns_original_fetch_witness :
    (∃ T, update envSub "2024-01-01" "7" ["a/f.txt"] false [] =
        (.ok (envSub T), T) ∧
       T.getLast? = some (Request.getDep "7") ∧
       T.getLast? ≠ some (Request.getDep (lastPathSegment
         "https://sandbox.zenodo.org/api/deposit/depositions/42"))) ∧
    (update envSub "2024-01-01" "7" ["a/f.txt"] true []).2.getLast? =
      some (Request.postAction (lastPathSegment
        "https://sandbox.zenodo.org/api/deposit/depositions/42") "publish") :=
  update_returns_original_fetch envSub "2024-01-01" "7" ["a/f.txt"]
    "https://sandbox.zenodo.org/api/deposit/depositions/42" "B"
    envSub_ok (by decide) (by decide) (by decide) (by decide)

/-! ## Evaluation lemmas for `create` -/

theorem create_run_ok (env : Env) (paths : List String) (publish : Bool) (b : String)
    (hok : ∀ l, (env l).status < 400)
    (hb : (env [Request.postDep]).json.links.bucket = some b) :
    create env [] paths publish =
      (let cid := (env [Request.postDep]).json.id
       let T := Request.postDep :: (uploadTrace b paths ++
         [if publish then Request.postAction cid "publish" else Request.getDep cid])
       (.ok (env T), T)) := by
  obtain ⟨rs, hrs⟩ := uploadFiles_run env b hok paths [Request.postDep]
  have h400 : ¬((env [Request.postDep]).status = 400) := by
    have := hok [Request.postDep]; omega
  cases publish <;>
    simp [create, send, raiseForStatus_ok, hok, h400, hb, hrs,
      publishDeposition, depositionAction_run, getDeposition_run]

/-! ## C5: missing bucket link on creation -/

/-- C5.  When the creation response has no `links.bucket`, `create`
fails with the "No bucket in response" error before issuing any file
upload; when a bucket link is present (and the server keeps answering
success), no such error occurs and the uploads in the trace all target
that bucket. -/
theorem create_bucket_check (env : Env) (paths : List String) (publish : Bool)
    (hst : (env [Request.postDep]).status < 400) :
    ((env [Request.postDep]).json.links.bucket = none →
      create env [] paths publish =
        (.error (.valueError (noBucketMsg (env [Request.postDep]).json)),
         [Request.postDep]) ∧
      ∀ bb f, Request.putFile bb f ∉ (create env [] paths publish).2) ∧
    (∀ b, (env [Request.postDep]).json.links.bucket = some b →
      (∀ l, (env l).status < 400) →
      ∃ res, create env [] paths publish =
        (.ok res, Request.postDep :: (uploadTrace b paths ++
          [if publish then Request.postAction (env [Request.postDep]).json.id "publish"
           else Request.getDep (env [Request.postDep]).json.id]))) := by
  have h400 : ¬((env [Request.postDep]).status = 400) := by omega
  constructor
  · intro hnone
    have hcr : create env [] paths publish =
        (.error (.valueError (noBucketMsg (env [Request.postDep]).json)),
         [Request.postDep]) := by
      simp [create, send, raiseForStatus_ok, hst, h400, hnone]
    refine ⟨hcr, ?_⟩
    intro bb f
    rw [hcr]
    simp
  · intro b hb hok
    refine ⟨env (Request.postDep :: (uploadTrace b paths ++
      [if publish then Request.postAction (env [Request.postDep]).json.id "publish"
       else Request.getDep (env [Request.postDep]).json.id])), ?_⟩
    exact create_run_ok env paths publish b hok hb

/-- Witness for `create_bucket_check`: a bucketless 200 response fails with
the protocol error and uploads nothing; `envSub` allocates bucket `B` and
the run uploads into it. -/
theorem create_bucket_check_witness :
    (create envNoBucket [] ["x.txt"] true =
      (.error (.valueError (noBucketMsg depNoBucket)), [Request.postDep]) ∧
      ∀ bb f, Request.putFile bb f ∉ (create envNoBucket [] ["x.txt"] true).2) ∧
    (∃ res, create envSub [] ["x.txt"] true =
      (.ok res, Request.postDep :: (uploadTrace "B" ["x.txt"] ++
        [if true then Request.postAction (envSub [Request.postDep]).json.id "publish"
         else Request.getDep (envSub [Request.postDep]).json.id]))) :=
  ⟨(create_bucket_check envNoBucket ["x.txt"] true (envNoBucket_ok _)).1 (by decide),
   (create_bucket_check envSub ["x.txt"] true (envSub_ok _)).2 "B" (by decide) envSub_ok⟩

/-! ## C6: the 400 status on creation is reported with the body text -/

/-- C6.  A 400 on the deposition-creation POST raises an error carrying
the full response body text; every other non-success status propagates as
an HTTP error carrying status and body. -/
theorem create_status_errors (env : Env) (paths : List String) (publish : Bool) :
    ((env [Request.postDep]).status = 400 →
      create env [] paths publish =
        (.error (.valueError (env [Request.postDep]).text), [Request.postDep])) ∧
    (∀ s, (env [Request.postDep]).status = s → 400 < s →
      create env [] paths publish =
        (.error (.httpError s (env [Request.postDep]).text), [Request.postDep])) := by
  constructor
  · intro h
    simp [create, send, h]
  · intro s hs hlt
    have h400 : ¬((env [Request.postDep]).status = 400) := by omega
    have hrs : raiseForStatus (env [Request.postDep]) =
        .error (.httpError s (env [Request.postDep]).text) := by
      unfold raiseForStatus
      rw [if_pos (by omega), hs]
    simp [create, send, h400, hrs]

/-- Witness for `create_status_errors`: a 400 carries the body verbatim, a
500 surfaces as a transport error with status and body. -/
theorem create_status_errors_witness :
    create envBad400 [] ["x.txt"] true =
      (.error (.valueError "metadata validation failed"), [Request.postDep]) ∧
    create envBad500 [] ["x.txt"] true =
      (.error (.httpError 500 "internal server error"), [Request.postDep]) :=
  ⟨(create_status_errors envBad400 ["x.txt"] true).1 rfl,
   (create_status_errors envBad500 ["x.txt"] true).2 500 rfl (by decide)⟩

/-! ## Trace lemmas: `update` never issues a creation POST -/

theorem getDeposition_trace (env : Env) (tr : Trace) (i : String) :
    (getDeposition env tr i).2 = tr ++ [Request.getDep i] := by
  unfold getDeposition send
  cases hrs : raiseForStatus (env (tr ++ [Request.getDep i])) <;> simp [hrs]

theorem depositionAction_trace (env : Env) (tr : Trace) (i a : String) :
    (depositionAction env tr i a).2 = tr ++ [Request.postAction i a] := by
  unfold depositionAction send
  cases hrs : raiseForStatus (env (tr ++ [Request.postAction i a])) <;> simp [hrs]

theorem uploadFiles_trace (env : Env) (bucket : String) :
    ∀ (paths : List String) (tr : Trace), ∃ s,
      (uploadFiles env tr bucket paths).2 = tr ++ s ∧
      ∀ r ∈ s, ∃ bb ff, r = Request.putFile bb ff := by
  intro paths
  induction paths with
  | nil =>
    intro tr
    exact ⟨[], by simp [uploadFiles], by simp⟩
  | cons p rest ih =>
    intro tr
    cases hrs : raiseForStatus (env (tr ++ [Request.putFile bucket (basename p)])) with
    | error e =>
      refine ⟨[Request.putFile bucket (basename p)], by simp [uploadFiles, send, hrs], ?_⟩
      intro r hr
      rw [List.mem_singleton] at hr
      exact ⟨bucket, basename p, hr⟩
    | ok u =>
      obtain ⟨s, hs, hall⟩ := ih (tr ++ [Request.putFile bucket (basename p)])
      rcases hu : uploadFiles env (tr ++ [Request.putFile bucket (basename p)]) bucket rest
        with ⟨x, t⟩
      have ht : t = (tr ++ [Request.putFile bucket (basename p)]) ++ s := by
        rw [← hs, hu]
      refine ⟨Request.putFile bucket (basename p) :: s, ?_, ?_⟩
      · cases x <;> simp [uploadFiles, send, hrs, hu, ht]
      · intro r hr
        rcases List.mem_cons.mp hr with h | h
        · exact ⟨bucket, basename p, h⟩
        · exact hall r h

theorem updateSubmitted_trace (env : Env) (today : String) (tr : Trace) (i : String) :
    ∃ s, (updateSubmittedDepositionMetadata env today tr i).2 = tr ++ s ∧
      Request.postDep ∉ s := by
  rcases hg : getDeposition env tr i with ⟨x, t⟩
  have ht : t = tr ++ [Request.getDep i] := by
    rw [show t = (getDeposition env tr i).2 from by rw [hg], getDeposition_trace]
  cases x with
  | error e =>
    exact ⟨[Request.getDep i], by simp [updateSubmittedDepositionMetadata, hg, ht], by simp⟩
  | ok res =>
    rcases ha : depositionAction env t i "newversion" with ⟨y, t2⟩
    have ht2 : t2 = tr ++ [Request.getDep i, Request.postAction i "newversion"] := by
      rw [show t2 = (depositionAction env t i "newversion").2 from by rw [ha],
        depositionAction_trace, ht]
      simp
    cases y with
    | error e =>
      exact ⟨[Request.getDep i, Request.postAction i "newversion"],
        by simp [updateSubmittedDepositionMetadata, hg, ha, ht2], by simp⟩
    | ok res2 =>
      rcases hld : res2.json.links.latest_draft with _ | ld
      · exact ⟨[Request.getDep i, Request.postAction i "newversion"],
          by simp [updateSubmittedDepositionMetadata, hg, ha, hld, ht2], by simp⟩
      · rcases hg2 : getDeposition env t2 (lastPathSegment ld) with ⟨z, t3⟩
        have ht3 : t3 = tr ++ [Request.getDep i, Request.postAction i "newversion",
            Request.getDep (lastPathSegment ld)] := by
          rw [show t3 = (getDeposition env t2 (lastPathSegment ld)).2 from by rw [hg2],
            getDeposition_trace, ht2]
          simp
        cases z with
        | error e =>
          exact ⟨[Request.getDep i, Request.postAction i "newversion",
              Request.getDep (lastPathSegment ld)],
            by simp [updateSubmittedDepositionMetadata, hg, ha, hld, hg2, ht3], by simp⟩
        | ok res3 =>
          refine ⟨[Request.getDep i, Request.postAction i "newversion",
              Request.getDep (lastPathSegment ld),
              Request.putDep (lastPathSegment ld)
                { version := prepareNewVersion today res.json.metadata.version,
                  publication_date := today }], ?_, by simp⟩
          cases hrs : raiseForStatus (env (tr ++
              [Request.getDep i, Request.postAction i "newversion",
               Request.getDep (lastPathSegment ld),
               Request.putDep (lastPathSegment ld)
                 { version := prepareNewVersion today res.json.metadata.version,
                   publication_date := today }])) <;>
            simp [updateSubmittedDepositionMetadata, hg, ha, hld, hg2, send, hrs, ht3]

theorem update_trace (env : Env) (today i : String) (paths : List String)
    (publish : Bool) (tr : Trace) :
    ∃ s, (update env today i paths publish tr).2 = tr ++ s ∧
      Request.postDep ∉ s := by
  rcases hg : getDeposition env tr i with ⟨x, t⟩
  have ht : t = tr ++ [Request.getDep i] := by
    rw [show t = (getDeposition env tr i).2 from by rw [hg], getDeposition_trace]
  cases x with
  | error e =>
    exact ⟨[Request.getDep i], by simp [update, hg, ht], by simp⟩
  | ok res =>
    rcases hy : (if res.json.submitted then
        updateSubmittedDepositionMetadata env today t i
      else ((.ok (res.json.id, res.json) : Except ZErr (String × Deposition)), t))
      with ⟨y, t2⟩
    have hs2 : ∃ s₁, t2 = tr ++ (Request.getDep i :: s₁) ∧ Request.postDep ∉ s₁ := by
      by_cases hsub : res.json.submitted
      · obtain ⟨s₁, hs₁, hn₁⟩ := updateSubmitted_trace env today t i
        rw [if_pos hsub] at hy
        refine ⟨s₁, ?_, hn₁⟩
        have : t2 = t ++ s₁ := by rw [← hs₁, hy]
        rw [this, ht]
        simp
      · rw [if_neg hsub] at hy
        refine ⟨[], ?_, by simp⟩
        have : t2 = t := by rw [show t2 = ((.ok (res.json.id, res.json) :
          Except ZErr (String × Deposition)), t).2 from by rw [hy]]
        rw [this, ht]
    obtain ⟨s₁, ht2, hn₁⟩ := hs2
    cases y with
    | error e =>
      exact ⟨Request.getDep i :: s₁, by simp [update, hg, hy, ht2], by simp [hn₁]⟩
    | ok pr =>
      rcases hbk : pr.2.links.bucket with _ | bkt
      · exact ⟨Request.getDep i :: s₁, by simp [update, hg, hy, hbk, ht2],
          by simp [hn₁]⟩
      · obtain ⟨s₂, hs₂, hall₂⟩ := uploadFiles_trace env bkt paths t2
        have hpf : Request.postDep ∉ s₂ := by
          intro hmem
          obtain ⟨bb, ff, hEq⟩ := hall₂ _ hmem
          exact Request.noConfusion hEq
        rcases hup : uploadFiles env t2 bkt paths with ⟨z, t3⟩
        have ht3 : t3 = tr ++ (Request.getDep i :: (s₁ ++ s₂)) := by
          have : t3 = t2 ++ s₂ := by rw [← hs₂, hup]
          rw [this, ht2]
          simp
        cases z with
        | error e =>
          exact ⟨Request.getDep i :: (s₁ ++ s₂),
            by simp [update, hg, hy, hbk, hup, ht3], by simp [hn₁, hpf]⟩
        | ok rsz =>
          rcases hg2 : getDeposition env t3 i with ⟨w, t4⟩
          have ht4 : t4 = tr ++ (Request.getDep i ::
              (s₁ ++ s₂ ++ [Request.getDep i])) := by
            have : t4 = t3 ++ [Request.getDep i] := by
              rw [show t4 = (getDeposition env t3 i).2 from by rw [hg2],
                getDeposition_trace]
            rw [this, ht3]
            simp
          cases w with
          | error e =>
            exact ⟨Request.getDep i :: (s₁ ++ s₂ ++ [Request.getDep i]),
              by simp [update, hg, hy, hbk, hup, hg2, ht4], by simp [hn₁, hpf]⟩
          | ok res4 =>
            cases publish with
            | false =>
              exact ⟨Request.getDep i :: (s₁ ++ s₂ ++ [Request.getDep i]),
                by simp [update, hg, hy, hbk, hup, hg2, ht4], by simp [hn₁, hpf]⟩
            | true =>
              refine ⟨Request.getDep i :: (s₁ ++ s₂ ++ [Request.getDep i,
                Request.postAction pr.1 "publish"]), ?_, by simp [hn₁, hpf]⟩
              have hfin : (update env today i paths true tr).2 =
                  (depositionAction env t4 pr.1 "publish").2 := by
                simp [update, hg, hy, hbk, hup, hg2, publishDeposition]
              rw [hfin, depositionAction_trace, ht4]
              simp

/-! ## C4: ensure is create-once, update-thereafter -/

/-- C4.  `ensure` with a key the store does not know performs `create`
(exactly one deposition-creation POST in the trace) and, only after the
create succeeded, persists the returned deposition's id under the key
(`hid` pins the id the consistent server reports); any later call whose
store remembers that id delegates to `update` with it and issues no
creation POST at all; and when `create` fails the store is left unchanged. -/
theorem ensure_idempotent (env : Env) (today key : String) (paths : List String)
    (store : Store) (i0 b : String)
    (hok : ∀ l, (env l).status < 400)
    (hb : (env [Request.postDep]).json.links.bucket = some b)
    (hid : ∀ l, (env l).json.id = i0)
    (h0 : store key = none) :
    (∃ res tr, ensure env today store key paths =
        ((.ok res, tr), fun k => if k = key then some i0 else store k) ∧
      tr.count Request.postDep = 1 ∧ res.json.id = i0) ∧
    (∀ store₁ : Store, store₁ key = some i0 →
      ensure env today store₁ key paths = (update env today i0 paths true [], store₁) ∧
      Request.postDep ∉ (ensure env today store₁ key paths).1.2) ∧
    (∀ env₂ : Env, ∀ e tr₂, create env₂ [] paths true = (.error e, tr₂) →
      ensure env₂ today store key paths = ((.error e, tr₂), store)) := by
  refine ⟨?_, ?_, ?_⟩
  · have hcr := create_run_ok env paths true b hok hb
    refine ⟨env (Request.postDep :: (uploadTrace b paths ++
        [Request.postAction (env [Request.postDep]).json.id "publish"])),
      Request.postDep :: (uploadTrace b paths ++
        [Request.postAction (env [Request.postDep]).json.id "publish"]), ?_, ?_, hid _⟩
    · have hstore : (fun k => if k = key then
          some ((env (Request.postDep :: (uploadTrace b paths ++
            [Request.postAction (env [Request.postDep]).json.id "publish"]))).json.id)
          else store k) =
          (fun k => if k = key then some i0 else store k) := by
        funext k
        rw [hid]
      rw [← hstore]
      simp [ensure, h0, hcr]
    · have hnot : Request.postDep ∉ (uploadTrace b paths ++
          [Request.postAction (env [Request.postDep]).json.id "publish"]) := by
        simp [uploadTrace]
      rw [List.count_cons_self, List.count_eq_zero.mpr hnot]
  · intro store₁ h1
    have he : ensure env today store₁ key paths =
        (update env today i0 paths true [], store₁) := by
      simp [ensure, h1]
    refine ⟨he, ?_⟩
    rw [he]
    obtain ⟨s, hs, hn⟩ := update_trace env today i0 paths true []
    show Request.postDep ∉ (update env today i0 paths true []).2
    rw [hs]
    simpa using hn
  · intro env₂ e tr₂ hcr2
    simp [ensure, h0, hcr2]

/-- Witness for `ensure_idempotent` against a consistent draft server:
first call creates and persists id `9`; a store remembering `9` makes the
next call update; failure leaves the store untouched. -/
theorem ensure_idempotent_witness :
    (∃ res tr, ensure envUnsub "2024-01-01" storeEmpty "k" ["x.txt"] =
        ((.ok res, tr), fun k => if k = "k" then some "9" else storeEmpty k) ∧
      tr.count Request.postDep = 1 ∧ res.json.id = "9") ∧
    (∀ store₁ : Store, store₁ "k" = some "9" →
      ensure envUnsub "2024-01-01" store₁ "k" ["x.txt"] =
        (update envUnsub "2024-01-01" "9" ["x.txt"] true [], store₁) ∧
      Request.postDep ∉ (ensure envUnsub "2024-01-01" store₁ "k" ["x.txt"]).1.2) ∧
    (∀ env₂ : Env, ∀ e tr₂, create env₂ [] ["x.txt"] true = (.error e, tr₂) →
      ensure env₂ "2024-01-01" storeEmpty "k" ["x.txt"] = ((.error e, tr₂), storeEmpty)) :=
  ensure_idempotent envUnsub "2024-01-01" "k" ["x.txt"] storeEmpty "9" "B2"
    envUnsub_ok (by decide) (fun _ => rfl) rfl

end ZenodoClient
